import Mathlib

/-
  Verification development for the smart-order-router repository.

  Part 1 models the request-handling layer found in
  src/app/src/pages/api/smartrouter/index.ts: JavaScript truthiness on
  the inbound parameter object, `validateParams`, `handleError` and the
  API `handler`.

  Part 2 models the routing core (pool graph, path finding, quote
  simulation, route optimisation, finalisation).  The module `./quote`
  implementing it is not part of the repository snapshot, so those
  definitions are modelled from the specification and are marked as such.
-/

namespace SmartOrderRouter

/-- A primitive JavaScript value as it can appear in a field of `req.query`
(strings) or a parsed JSON `req.body` (numbers, strings, null, absent). -/
inductive JsPrim where
  | undef
  | vnull
  | num (n : Int)
  | str (s : String)
deriving DecidableEq, Repr

/-- JavaScript truthiness of a primitive value: `undefined` and `null` are
falsy, a number is falsy exactly when it is `0`, a string exactly when it
is empty. -/
def JsPrim.truthy : JsPrim → Bool
  | .undef => false
  | .vnull => false
  | .num n => n != 0
  | .str s => s != ""

/-- JavaScript `a || b`: the left operand when truthy, otherwise the right. -/
def jsOr (a b : JsPrim) : JsPrim := if a.truthy then a else b

/-- The token object of the inbound parameter object (fields `token0` /
`token1` of `ParamsOptions`), with every field a raw JavaScript value since
nothing is type checked before `validateParams` reads it. -/
structure RawToken where
  address : JsPrim
  decimals : JsPrim
  symbol : JsPrim
  name : JsPrim
deriving DecidableEq, Repr

/-- The inbound parameter object handed to `validateParams` — either
`req.query` (GET) or `req.body ?? \x7b\x7d` (POST).  The token fields are
`Option` because the code first tests them for presence and only then
dereferences their members. -/
structure RawParams where
  chainId : JsPrim
  amount : JsPrim
  walletAddress : JsPrim
  slippage : JsPrim
  tradeType : JsPrim
  deadline : JsPrim
  token0 : Option RawToken
  token1 : Option RawToken
deriving DecidableEq, Repr

/-- A thrown `Error` object as `handleError` inspects it: `message` is
always a string on an `Error`, `status` and `code` are optional numeric
fields of `ApiError`, `stack` and `cause` are arbitrary values read with
JavaScript `||` fallbacks. -/
structure ErrObj where
  message : String
  status : Option Int
  code : Option Int
  stack : JsPrim
  cause : JsPrim
deriving DecidableEq, Repr

/-- A value reaching the `catch` block: an `Error` instance, a plain
string, or anything else. -/
inductive Thrown where
  | err (e : ErrObj)
  | str (s : String)
  | other
deriving DecidableEq, Repr

/-- `new Error(msg)`: message set, no `status`/`code` fields; the runtime
stack string is environment dependent and not modelled. -/
def jsError (msg : String) : ErrObj :=
  { message := msg, status := none, code := none, stack := .undef, cause := .undef }

/-- `validateParams` from src/app/src/pages/api/smartrouter/index.ts.
The leading `if (!paramsObj)` guard of the source cannot fire here because
both parameter sources are JavaScript objects (hence truthy): `req.query`
is always an object and `req.body ?? \x7b\x7d` is an object for JSON bodies.
The three remaining guards are transcribed in source order; the function
returns the destructured fields unchanged, which for this record is the
input itself. -/
def validateParams (paramsObj : RawParams) : Except ErrObj RawParams :=
  match paramsObj.token0, paramsObj.token1 with
  | some t0, some t1 =>
    if !paramsObj.chainId.truthy || !paramsObj.amount.truthy
        || !paramsObj.walletAddress.truthy || !paramsObj.slippage.truthy
        || !paramsObj.tradeType.truthy then
      .error (jsError "params[chainId,amountIn,token0,token1,walletAddress,slippage] cannot be empty")
    else if !t0.address.truthy || !t0.decimals.truthy
        || !t1.address.truthy || !t1.decimals.truthy then
      .error (jsError "token(addrss,decimals) cannot be empty")
    else if paramsObj.tradeType ≠ .str "exactIn" ∧ paramsObj.tradeType ≠ .str "exactOut" then
      .error (jsError "tradeType type fix (exactIn | exactOut)")
    else
      .ok paramsObj
  | _, _ =>
    .error (jsError "params[chainId,amountIn,token0,token1,walletAddress,slippage] cannot be empty")

/-- The response body shapes the handler can emit: the debug echo, the
success envelope, or the error payload built by `handleError` (whose
optional `error` entry only exists in development mode). -/
inductive Body (α : Type) where
  | debug (schedulerToken : String) (environment : Option String)
      (headers : List (String × String))
  | success (code : Int) (data : α) (message : String)
  | failure (code : Int) (message : String) (error : Option JsPrim)
deriving DecidableEq, Repr

/-- An HTTP response as produced by the handler: `res.status(s).end()` or
`res.status(s).json(body)`. -/
inductive Response (α : Type) where
  | noContent (status : Int)
  | json (status : Int) (body : Body α)
deriving DecidableEq, Repr

/-- `handleError` from src/app/src/pages/api/smartrouter/index.ts.
`env` is `process.env.NODE_ENV`.  For an `Error`: status is
`apiError.status ?? 500`, code is `apiError.code ?? status`, message is
`apiError.message || 'Server internal error'`, and in development the
payload carries `apiError.stack || apiError.cause || undefined`.  A thrown
string becomes a 500 with that message; anything else a generic 500. -/
def handleError (α : Type) (env : Option String) (error : Thrown) : Response α :=
  match error with
  | .err e =>
    let status := e.status.getD 500
    let code := e.code.getD status
    let message := if e.message = "" then "Server internal error" else e.message
    let extra : Option JsPrim :=
      if env = some "development" then some (jsOr e.stack (jsOr e.cause .undef)) else none
    .json status (.failure code message extra)
  | .str s => .json 500 (.failure 500 s none)
  | .other => .json 500 (.failure 500 "Server internal error" none)

/-- The parts of a `NextApiRequest` the handler reads.  `queryDebug` is the
`debug` entry of `req.query`. -/
structure Request where
  method : String
  query : RawParams
  queryDebug : JsPrim
  body : Option RawParams
  headers : List (String × String)
deriving Repr

/-- The parameter object with no fields set, i.e. `\x7b\x7d`. -/
def emptyParams : RawParams :=
  { chainId := .undef, amount := .undef, walletAddress := .undef, slippage := .undef,
    tradeType := .undef, deadline := .undef, token0 := none, token1 := none }

/-- The API `handler` from src/app/src/pages/api/smartrouter/index.ts.
The CORS `setHeader` calls only mutate response headers and are not part
of the modelled response body.  `env` is `process.env.NODE_ENV` and
`getRoute` is the imported route computation from `./quote`, taken here as
an oracle so that theorems can quantify over it. -/
def handler (α : Type) (env : Option String)
    (getRoute : RawParams → Except Thrown α) (req : Request) : Response α :=
  if req.method = "OPTIONS" then
    .noContent 204
  else
    let debug : Option String := match req.queryDebug with | .str s => some s | _ => none
    if debug = some "true" then
      .json 200 (.debug "" env req.headers)
    else
      let paramsObj := if req.method = "GET" then req.query else req.body.getD emptyParams
      match validateParams paramsObj with
      | .error e => handleError α env (.err e)
      | .ok ps =>
        match getRoute ps with
        | .error t => handleError α env t
        | .ok data => .json 200 (.success 200 data "success")

/-! ## Routing core

Modelled from the spec: the module `./quote` (entry point `getRoute`,
components Pool Registry, Graph Builder, Path Finder, Quote Simulator,
Route Optimizer and Quote Aggregator of spec sections 4.1–4.6) is not
present in the repository snapshot; only its caller is.  The definitions
below follow the specification text.  Amounts, reserves, fees in basis
points and timestamps are rationals. -/

/-- Trade mode fixing either the input amount or the output amount. -/
inductive TradeType where
  | exactIn
  | exactOut
deriving DecidableEq, Repr

/-- Modelled from the spec: a token — chain identifier, contract address,
decimal precision, symbol; identity is (chain, address). -/
structure Token where
  chainId : Nat
  address : String
  decimals : Nat
  symbol : String
deriving DecidableEq, Repr

/-- Modelled from the spec: a constant-product pool — chain, the two
tokens it trades, reserves and a fee tier in basis points.  The
concentrated-liquidity variant of section 4.4 is not modelled. -/
structure Pool where
  chainId : Nat
  token0 : Token
  token1 : Token
  reserve0 : ℚ
  reserve1 : ℚ
  feeBps : ℚ
deriving DecidableEq, Repr

/-- Modelled from the spec: a directed projection of a pool for one swap
direction. -/
structure Edge where
  tokenIn : Token
  tokenOut : Token
  reserveIn : ℚ
  reserveOut : ℚ
  feeBps : ℚ
deriving DecidableEq, Repr

/-- Modelled from the spec: the error taxonomy of section 7. -/
inductive RoutingError where
  | invalidRequest
  | noRouteFound
  | insufficientLiquidity
  | slippageExceeded
  | deadlineExceeded
  | rpcFailure
  | internalComputationError
deriving DecidableEq, Repr

/-- Modelled from the spec: a trade request (section 3). -/
structure TradeRequest where
  chainId : Nat
  inputToken : Token
  outputToken : Token
  amount : ℚ
  tradeType : TradeType
  slippageBps : ℚ
  deadline : ℚ
  walletAddress : String
deriving DecidableEq, Repr

/-- Modelled from the spec: tunable search parameters — maximum hop count
and number of retained candidate paths (sections 4.3 and 9 treat them as
configuration, not fixed constants). -/
structure Config where
  maxHops : Nat
  maxPaths : Nat
deriving DecidableEq, Repr

/-- A pool usable for routing: strictly positive reserves on both sides
and a sane fee strictly below 100% (spec 4.2: pools with zero or unusable
liquidity are excluded by the graph builder). -/
def usablePool (pl : Pool) : Bool :=
  decide (0 < pl.reserve0) && decide (0 < pl.reserve1)
    && decide (0 ≤ pl.feeBps) && decide (pl.feeBps < 10000)

/-- The two directed edges of a pool. -/
def poolEdges (pl : Pool) : List Edge :=
  [ { tokenIn := pl.token0, tokenOut := pl.token1,
      reserveIn := pl.reserve0, reserveOut := pl.reserve1, feeBps := pl.feeBps },
    { tokenIn := pl.token1, tokenOut := pl.token0,
      reserveIn := pl.reserve1, reserveOut := pl.reserve0, feeBps := pl.feeBps } ]

/-- Modelled from the spec: the graph builder (section 4.2) — filter the
snapshot to usable pools of the request's chain and project each into its
two directed edges. -/
def buildGraph (pools : List Pool) (chainId : Nat) : List Edge :=
  (pools.filter (fun pl => pl.chainId == chainId && usablePool pl)).flatMap poolEdges

/-- An edge with positive reserves and a fee in [0, 10000). -/
def validEdge (e : Edge) : Prop :=
  0 < e.reserveIn ∧ 0 < e.reserveOut ∧ 0 ≤ e.feeBps ∧ e.feeBps < 10000

instance (e : Edge) : Decidable (validEdge e) := by
  unfold validEdge
  infer_instance

/-- Every edge of a path is valid. -/
def pathValid (p : List Edge) : Prop := ∀ e ∈ p, validEdge e

instance (p : List Edge) : Decidable (pathValid p) := by
  unfold pathValid
  infer_instance

/-- Modelled from the spec: bounded depth-first path enumeration with a
per-branch visited-token set (section 4.3).  `fuel` is the remaining hop
budget; a search branch stops as soon as it reaches the target. -/
def findPathsAux (graph : List Edge) (target : Token) :
    Nat → Token → List Token → List (List Edge)
  | 0, _, _ => []
  | fuel + 1, current, visited =>
    (graph.filter (fun e => e.tokenIn == current && !(visited.contains e.tokenOut))).flatMap
      (fun e =>
        if e.tokenOut == target then
          [[e]]
        else
          (findPathsAux graph target fuel e.tokenOut (e.tokenOut :: visited)).map
            (fun rest => e :: rest))

/-- Insert a path into a list kept sorted by ascending hop count. -/
def insertByLen (p : List Edge) : List (List Edge) → List (List Edge)
  | [] => [p]
  | q :: qs => if p.length ≤ q.length then p :: q :: qs else q :: insertByLen p qs

/-- Modelled from the spec: rank candidate paths by the cheap static
heuristic of hop count ascending (section 4.3). -/
def rankPaths : List (List Edge) → List (List Edge)
  | [] => []
  | p :: ps => insertByLen p (rankPaths ps)

/-- Modelled from the spec: the path finder (section 4.3) — fails with
`InvalidRequest` when the input token equals the output token, enumerates
simple paths up to `maxHops` edges, ranks them and keeps the top
`maxPaths`; fails with `NoRouteFound` when none remain. -/
def findPaths (graph : List Edge) (input output : Token) (maxHops maxPaths : Nat) :
    Except RoutingError (List (List Edge)) :=
  if input = output then
    .error .invalidRequest
  else
    let ps := (rankPaths (findPathsAux graph output maxHops input [input])).take maxPaths
    if ps.isEmpty then .error .noRouteFound else .ok ps

/-- Fraction of the input amount left after the fee is deducted. -/
def feeFactor (e : Edge) : ℚ := (10000 - e.feeBps) / 10000

/-- One constant-product hop (spec 4.4): with the fee deducted from the
input, output = reserveOut − reserveIn × reserveOut / (reserveIn +
amountInAfterFee). -/
def hopOut (e : Edge) (x : ℚ) : ℚ :=
  e.reserveOut - e.reserveIn * e.reserveOut / (e.reserveIn + feeFactor e * x)

/-- Output of a whole path for a given input amount, applying each pool's
execution model sequentially (spec 4.4). -/
def pathOut : List Edge → ℚ → ℚ
  | [], x => x
  | e :: es, x => pathOut es (hopOut e x)

/-- The input a hop requires to produce `y` units of output (the inverse
of `hopOut`), defined for `y < reserveOut`. -/
def hopInReq (e : Edge) (y : ℚ) : ℚ :=
  e.reserveIn * y / (feeFactor e * (e.reserveOut - y))

/-- Input a whole path requires to produce `y` units of final output;
`none` when some pool's liquidity is exhausted (spec 4.4:
`InsufficientLiquidity` when the path cannot fill the trial amount). -/
def pathInReq : List Edge → ℚ → Option ℚ
  | [], y => some y
  | e :: es, y =>
    match pathInReq es y with
    | none => none
    | some mid => if mid < e.reserveOut then some (hopInReq e mid) else none

/-- Quoted spot price of a path: product of per-hop spot prices
reserveOut / reserveIn. -/
def spotPrice : List Edge → ℚ
  | [] => 1
  | e :: es => e.reserveOut / e.reserveIn * spotPrice es

/-- Price impact in basis points (spec 4.4): (quoted spot price −
effective execution price) / quoted spot price, scaled by 10000. -/
def impactOf (spot eff : ℚ) : ℚ := (spot - eff) / spot * 10000

/-- Modelled from the spec: the quote simulator (section 4.4) — for a
path and trial amount it reports the realized counter-amount and the
price impact in basis points; for exact-out it fails when liquidity is
exhausted mid-path. -/
def simulate (p : List Edge) (trialAmount : ℚ) : TradeType → Option (ℚ × ℚ)
  | .exactIn =>
    some (pathOut p trialAmount, impactOf (spotPrice p) (pathOut p trialAmount / trialAmount))
  | .exactOut =>
    (pathInReq p trialAmount).map
      (fun inp => (inp, impactOf (spotPrice p) (trialAmount / inp)))

/-- A split: a path paired with the portion of the total amount routed
through it (spec section 3). -/
def Split : Type := List Edge × ℚ

/-- Sum of the amounts of a list of splits. -/
def splitsSum (splits : List (List Edge × ℚ)) : ℚ := (splits.map (fun s => s.2)).sum

/-- Aggregate realized output of an exact-in allocation. -/
def aggOutput (splits : List (List Edge × ℚ)) : ℚ :=
  (splits.map (fun s => pathOut s.1 s.2)).sum

/-- Aggregate required input of an exact-out allocation; `none` when some
split cannot be filled. -/
def aggInput : List (List Edge × ℚ) → Option ℚ
  | [] => some 0
  | s :: rest =>
    match pathInReq s.1 s.2, aggInput rest with
    | some i, some r => some (i + r)
    | _, _ => none

/-- Pick the best-scoring candidate, returning it together with the
remaining candidates. -/
def pickBest (score : List Edge → ℚ) : List (List Edge) → Option (List Edge × List (List Edge))
  | [] => none
  | p :: ps =>
    match pickBest score ps with
    | none => some (p, [])
    | some (q, rest) =>
      if score q < score p then some (p, q :: rest) else some (q, p :: rest)

/-- Modelled from the spec: one marginal-improvement step of the
exact-in optimizer (section 4.5) — divert half of the leading split to an
alternative path when that strictly improves aggregate output, otherwise
keep the allocation. -/
def stepRealloc (splits : List (List Edge × ℚ)) (alt : List Edge) :
    List (List Edge × ℚ) :=
  match splits with
  | [] => []
  | (p, a) :: rest =>
    let cand := (p, a - a / 2) :: (alt, a / 2) :: rest
    if aggOutput splits < aggOutput cand then cand else splits

/-- Modelled from the spec: one marginal-improvement step of the
exact-out optimizer — divert half of the leading split when that strictly
reduces aggregate required input. -/
def stepReallocOut (splits : List (List Edge × ℚ)) (alt : List Edge) :
    List (List Edge × ℚ) :=
  match splits with
  | [] => []
  | (p, a) :: rest =>
    let cand := (p, a - a / 2) :: (alt, a / 2) :: rest
    match aggInput splits, aggInput cand with
    | some cur, some new => if new < cur then cand else splits
    | _, _ => splits

/-- Modelled from the spec: the route optimizer (section 4.5) — start
with the whole amount on the single best path (by simulated result at the
full amount), then greedily test diverting marginal increments to each
alternative candidate.  Exact-out fails with `InsufficientLiquidity` when
no candidate can fill the total amount. -/
def optimize (tradeType : TradeType) (candidates : List (List Edge)) (total : ℚ) :
    Except RoutingError (List (List Edge × ℚ)) :=
  match tradeType with
  | .exactIn =>
    match pickBest (fun p => pathOut p total) candidates with
    | none => .error .noRouteFound
    | some (best, alts) => .ok (alts.foldl stepRealloc [(best, total)])
  | .exactOut =>
    match pickBest (fun p => -((pathInReq p total).getD 0))
        (candidates.filter (fun p => (pathInReq p total).isSome)) with
    | none => .error .insufficientLiquidity
    | some (best, alts) => .ok (alts.foldl stepReallocOut [(best, total)])

/-- Modelled from the spec: a route — the splits plus the requested total
and the aggregate realized amount (output for exact-in, input for
exact-out) (section 3). -/
structure Route where
  splits : List (List Edge × ℚ)
  amount : ℚ
  realized : ℚ
deriving DecidableEq, Repr

/-- Modelled from the spec: the externally visible quote — the route plus
the slippage-derived worst-case bound (section 3). -/
structure Quote where
  route : Route
  bound : ℚ
deriving DecidableEq, Repr

/-- Modelled from the spec: the quote aggregator (section 4.6) —
validates the deadline against the current time and computes the
slippage-adjusted bound: minOutput = output × (1 − slippageBps/10000) for
exact-in, maxInput = input × (1 + slippageBps/10000) for exact-out. -/
def finalize (route : Route) (req : TradeRequest) (now : ℚ) : Except RoutingError Quote :=
  if req.deadline < now then
    .error .deadlineExceeded
  else
    match req.tradeType with
    | .exactIn => .ok { route := route, bound := route.realized * (1 - req.slippageBps / 10000) }
    | .exactOut => .ok { route := route, bound := route.realized * (1 + req.slippageBps / 10000) }

/-- Modelled from the spec: the core entry point
`computeRoute(TradeRequest) -> Result<Quote, RoutingError>` (section 6).
Self-referential and non-positive requests are `InvalidRequest`
(section 7); a request already past its deadline yields
`DeadlineExceeded` before any simulation work (section 8); otherwise the
pipeline of sections 4.2–4.6 runs over the pool snapshot. -/
def computeRoute (cfg : Config) (pools : List Pool) (now : ℚ) (req : TradeRequest) :
    Except RoutingError Quote :=
  if req.inputToken = req.outputToken then
    .error .invalidRequest
  else if req.amount ≤ 0 then
    .error .invalidRequest
  else if req.deadline < now then
    .error .deadlineExceeded
  else
    let graph := buildGraph pools req.chainId
    match findPaths graph req.inputToken req.outputToken cfg.maxHops cfg.maxPaths with
    | .error e => .error e
    | .ok candidates =>
      match optimize req.tradeType candidates req.amount with
      | .error e => .error e
      | .ok splits =>
        let realized :=
          match req.tradeType with
          | .exactIn => aggOutput splits
          | .exactOut => (aggInput splits).getD 0
        finalize { splits := splits, amount := req.amount, realized := realized } req now

/-- Allocation invariant maintained by the optimizer: the split amounts
sum to the requested total, every amount is non-negative and every split
path consists of valid edges. -/
def goodSplits (total : ℚ) (splits : List (List Edge × ℚ)) : Prop :=
  splitsSum splits = total ∧ ∀ s ∈ splits, 0 ≤ s.2 ∧ pathValid s.1

/-! ## Predicates and concrete fixtures -/

/-- Both token members read by the second guard of `validateParams` are
truthy: a non-empty address and a non-zero decimals value. -/
def tokenFieldsOk (t : RawToken) : Prop :=
  t.address.truthy = true ∧ t.decimals.truthy = true

instance (t : RawToken) : Decidable (tokenFieldsOk t) := by
  unfold tokenFieldsOk
  infer_instance

/-- Every requirement `validateParams` imposes except the slippage one:
truthy `chainId`, `amount` and `walletAddress`, both token objects present
with truthy address and decimals, and a literal `exactIn` / `exactOut`
trade type. -/
def otherFieldsOk (p : RawParams) : Prop :=
  p.chainId.truthy = true ∧ p.amount.truthy = true ∧ p.walletAddress.truthy = true ∧
  (∃ t0, p.token0 = some t0 ∧ tokenFieldsOk t0) ∧
  (∃ t1, p.token1 = some t1 ∧ tokenFieldsOk t1) ∧
  (p.tradeType = JsPrim.str "exactIn" ∨ p.tradeType = JsPrim.str "exactOut")

/-- The exact set of conditions under which `validateParams` succeeds. -/
def requiredOk (p : RawParams) : Prop :=
  otherFieldsOk p ∧ p.slippage.truthy = true

/-- A token object with all fields set. -/
def tokA : RawToken :=
  { address := .str "0xA", decimals := .num 18, symbol := .str "AAA", name := .str "TokenA" }

/-- A second token object with all fields set. -/
def tokB : RawToken :=
  { address := .str "0xB", decimals := .num 6, symbol := .str "BBB", name := .str "TokenB" }

/-- A fully populated, valid parameter object. -/
def pAllGood : RawParams :=
  { chainId := .num 1, amount := .num 1000, walletAddress := .str "0xW",
    slippage := .num 50, tradeType := .str "exactIn", deadline := .num 999,
    token0 := some tokA, token1 := some tokB }

/-- The valid parameter object with a strictly negative amount. -/
def pNegAmount : RawParams :=
  { pAllGood with amount := .num (-5) }

/-- The valid parameter object with amount `0`. -/
def pZeroAmount : RawParams :=
  { pAllGood with amount := .num 0 }

/-- The valid parameter object with slippage `0` basis points. -/
def pZeroSlippage : RawParams :=
  { pAllGood with slippage := .num 0 }

/-- A parameter object meeting every condition named by the specification
(trade type, token address and decimals, chain id, amount) but carrying no
slippage field. -/
def pNoSlippage : RawParams :=
  { pAllGood with slippage := .undef }

/-- The valid parameter object with no deadline field. -/
def pNoDeadline : RawParams :=
  { pAllGood with deadline := .undef }

/-- USDC-like token on chain 1. -/
def tUSDC : Token := { chainId := 1, address := "0xUSDC", decimals := 6, symbol := "USDC" }

/-- ETH-like token on chain 1. -/
def tETH : Token := { chainId := 1, address := "0xETH", decimals := 18, symbol := "ETH" }

/-- The single pool of spec scenario A: 1,000,000 USDC / 500 ETH, 30 bps fee. -/
def poolA : Pool :=
  { chainId := 1, token0 := tUSDC, token1 := tETH,
    reserve0 := 1000000, reserve1 := 500, feeBps := 30 }

/-- The USDC → ETH edge of `poolA`. -/
def edgeA : Edge :=
  { tokenIn := tUSDC, tokenOut := tETH, reserveIn := 1000000, reserveOut := 500, feeBps := 30 }

/-- A small search configuration. -/
def cfgA : Config := { maxHops := 3, maxPaths := 5 }

/-- The exact-in request of spec scenario A. -/
def reqA : TradeRequest :=
  { chainId := 1, inputToken := tUSDC, outputToken := tETH, amount := 1000,
    tradeType := .exactIn, slippageBps := 50, deadline := 100, walletAddress := "0xW" }

/-- A self-referential request: input token equals output token. -/
def reqSelf : TradeRequest :=
  { reqA with outputToken := tUSDC }

/-- The scenario-A request with a deadline already in the past at time 10. -/
def reqLate : TradeRequest :=
  { reqA with deadline := 5 }

/-- A symmetric fee-free edge used to exercise the simulator. -/
def edgeFlat : Edge :=
  { tokenIn := tUSDC, tokenOut := tETH, reserveIn := 100, reserveOut := 100, feeBps := 0 }

/-- A request carrying the debug flag. -/
def reqDebug : Request :=
  { method := "GET", query := emptyParams, queryDebug := .str "true", body := none,
    headers := [("host", "example.test"), ("authorization", "Bearer tok")] }

/-! ## Simulator arithmetic -/

theorem feeFactor_pos (e : Edge) (he : validEdge e) : 0 < feeFactor e := by
  obtain ⟨-, -, -, h⟩ := he
  unfold feeFactor
  exact div_pos (by linarith) (by norm_num)

theorem hopDenom_pos (e : Edge) (he : validEdge e) (x : ℚ) (hx : 0 ≤ x) :
    0 < e.reserveIn + feeFactor e * x := by
  have h1 := feeFactor_pos e he
  have h2 := he.1
  nlinarith

theorem hopOut_eq (e : Edge) (he : validEdge e) (x : ℚ) (hx : 0 ≤ x) :
    hopOut e x = e.reserveOut * (feeFactor e * x) / (e.reserveIn + feeFactor e * x) := by
  have hd := hopDenom_pos e he x hx
  unfold hopOut
  field_simp
  ring

theorem hopOut_pos (e : Edge) (he : validEdge e) (x : ℚ) (hx : 0 < x) :
    0 < hopOut e x := by
  rw [hopOut_eq e he x hx.le]
  have hd := hopDenom_pos e he x hx.le
  have hf := feeFactor_pos e he
  have ho := he.2.1
  exact div_pos (mul_pos ho (mul_pos hf hx)) hd

theorem hopOut_nonneg (e : Edge) (he : validEdge e) (x : ℚ) (hx : 0 ≤ x) :
    0 ≤ hopOut e x := by
  rw [hopOut_eq e he x hx]
  have hd := hopDenom_pos e he x hx
  have hf := feeFactor_pos e he
  have ho := he.2.1
  exact div_nonneg (mul_nonneg ho.le (mul_nonneg hf.le hx)) hd.le

theorem hopOut_mono (e : Edge) (he : validEdge e) (x1 x2 : ℚ)
    (h1 : 0 ≤ x1) (h12 : x1 ≤ x2) : hopOut e x1 ≤ hopOut e x2 := by
  unfold hopOut
  have hd1 := hopDenom_pos e he x1 h1
  have hd2 := hopDenom_pos e he x2 (h1.trans h12)
  have hf := feeFactor_pos e he
  have hnum : 0 ≤ e.reserveIn * e.reserveOut := mul_nonneg he.1.le he.2.1.le
  have hdd : e.reserveIn + feeFactor e * x1 ≤ e.reserveIn + feeFactor e * x2 := by
    nlinarith
  have := div_le_div_of_nonneg_left hnum hd1 hdd
  linarith [div_le_div_of_nonneg_left hnum hd1 hdd]

theorem hopOut_ratio (e : Edge) (he : validEdge e) (x : ℚ) (hx : 0 < x) :
    hopOut e x / x = e.reserveOut * feeFactor e / (e.reserveIn + feeFactor e * x) := by
  rw [hopOut_eq e he x hx.le]
  have hd := hopDenom_pos e he x hx.le
  field_simp
  ring

theorem hopOut_ratio_anti (e : Edge) (he : validEdge e) (x1 x2 : ℚ)
    (h1 : 0 < x1) (h12 : x1 ≤ x2) :
    hopOut e x2 / x2 ≤ hopOut e x1 / x1 := by
  rw [hopOut_ratio e he x1 h1, hopOut_ratio e he x2 (h1.trans_le h12)]
  have hd1 := hopDenom_pos e he x1 h1.le
  have hf := feeFactor_pos e he
  have hnum : 0 ≤ e.reserveOut * feeFactor e := mul_nonneg he.2.1.le hf.le
  have hdd : e.reserveIn + feeFactor e * x1 ≤ e.reserveIn + feeFactor e * x2 := by
    nlinarith
  exact div_le_div_of_nonneg_left hnum hd1 hdd

theorem pathValid_cons {e : Edge} {es : List Edge} (h : pathValid (e :: es)) :
    validEdge e ∧ pathValid es :=
  ⟨h e (List.mem_cons_self e es), fun f hf => h f (List.mem_cons_of_mem e hf)⟩

theorem pathOut_pos (p : List Edge) (hp : pathValid p) (x : ℚ) (hx : 0 < x) :
    0 < pathOut p x := by
  induction p generalizing x with
  | nil => exact hx
  | cons e es ih =>
    obtain ⟨he, hes⟩ := pathValid_cons hp
    exact ih hes (hopOut e x) (hopOut_pos e he x hx)

theorem pathOut_nonneg (p : List Edge) (hp : pathValid p) (x : ℚ) (hx : 0 ≤ x) :
    0 ≤ pathOut p x := by
  induction p generalizing x with
  | nil => exact hx
  | cons e es ih =>
    obtain ⟨he, hes⟩ := pathValid_cons hp
    exact ih hes (hopOut e x) (hopOut_nonneg e he x hx)

theorem pathOut_mono (p : List Edge) (hp : pathValid p) (x1 x2 : ℚ)
    (h1 : 0 ≤ x1) (h12 : x1 ≤ x2) : pathOut p x1 ≤ pathOut p x2 := by
  induction p generalizing x1 x2 with
  | nil => exact h12
  | cons e es ih =>
    obtain ⟨he, hes⟩ := pathValid_cons hp
    exact ih hes (hopOut e x1) (hopOut e x2) (hopOut_nonneg e he x1 h1)
      (hopOut_mono e he x1 x2 h1 h12)

theorem pathOut_ratio_anti (p : List Edge) (hp : pathValid p) (x1 x2 : ℚ)
    (h1 : 0 < x1) (h12 : x1 ≤ x2) :
    pathOut p x2 / x2 ≤ pathOut p x1 / x1 := by
  induction p generalizing x1 x2 with
  | nil =>
    rw [pathOut, pathOut, div_self h1.ne.symm, div_self (h1.trans_le h12).ne.symm]
  | cons e es ih =>
    obtain ⟨he, hes⟩ := pathValid_cons hp
    have hy1 : 0 < hopOut e x1 := hopOut_pos e he x1 h1
    have hy2 : 0 < hopOut e x2 := hopOut_pos e he x2 (h1.trans_le h12)
    have hsplit1 : pathOut (e :: es) x1 / x1 =
        pathOut es (hopOut e x1) / hopOut e x1 * (hopOut e x1 / x1) := by
      rw [pathOut]
      rw [div_mul_div_comm, mul_comm (hopOut e x1) x1, mul_div_mul_right _ _ hy1.ne.symm]
    have hsplit2 : pathOut (e :: es) x2 / x2 =
        pathOut es (hopOut e x2) / hopOut e x2 * (hopOut e x2 / x2) := by
      rw [pathOut]
      rw [div_mul_div_comm, mul_comm (hopOut e x2) x2, mul_div_mul_right _ _ hy2.ne.symm]
    rw [hsplit1, hsplit2]
    have hmono := hopOut_mono e he x1 x2 h1.le h12
    have hfirst : pathOut es (hopOut e x2) / hopOut e x2 ≤
        pathOut es (hopOut e x1) / hopOut e x1 := ih hes _ _ hy1 hmono
    have hsecond : hopOut e x2 / x2 ≤ hopOut e x1 / x1 := hopOut_ratio_anti e he x1 x2 h1 h12
    have hb1 : 0 ≤ pathOut es (hopOut e x1) / hopOut e x1 :=
      div_nonneg (pathOut_nonneg es hes _ hy1.le) hy1.le
    have hb2 : 0 ≤ hopOut e x2 / x2 :=
      div_nonneg hy2.le (h1.trans_le h12).le
    exact mul_le_mul hfirst hsecond hb2 hb1

theorem spotPrice_pos (p : List Edge) (hp : pathValid p) : 0 < spotPrice p := by
  induction p with
  | nil => norm_num [spotPrice]
  | cons e es ih =>
    obtain ⟨he, hes⟩ := pathValid_cons hp
    rw [spotPrice]
    exact mul_pos (div_pos he.2.1 he.1) (ih hes)

theorem impactOf_anti (spot e1 e2 : ℚ) (hs : 0 < spot) (h : e2 ≤ e1) :
    impactOf spot e1 ≤ impactOf spot e2 := by
  unfold impactOf
  have : (spot - e1) / spot ≤ (spot - e2) / spot :=
    div_le_div_of_nonneg_right (by linarith) hs.le
  linarith

theorem hopInReq_nonneg (e : Edge) (he : validEdge e) (y : ℚ)
    (hy : 0 ≤ y) (hlt : y < e.reserveOut) : 0 ≤ hopInReq e y := by
  unfold hopInReq
  have hf := feeFactor_pos e he
  exact div_nonneg (mul_nonneg he.1.le hy) (mul_nonneg hf.le (by linarith))

theorem hopInReq_pos (e : Edge) (he : validEdge e) (y : ℚ)
    (hy : 0 < y) (hlt : y < e.reserveOut) : 0 < hopInReq e y := by
  unfold hopInReq
  have hf := feeFactor_pos e he
  exact div_pos (mul_pos he.1 hy) (mul_pos hf (by linarith))

theorem hopInReq_mono (e : Edge) (he : validEdge e) (y1 y2 : ℚ)
    (h1 : 0 ≤ y1) (h12 : y1 ≤ y2) (hlt : y2 < e.reserveOut) :
    hopInReq e y1 ≤ hopInReq e y2 := by
  unfold hopInReq
  have hf := feeFactor_pos e he
  have hd2 : 0 < feeFactor e * (e.reserveOut - y2) := mul_pos hf (by linarith)
  have hd1 : feeFactor e * (e.reserveOut - y2) ≤ feeFactor e * (e.reserveOut - y1) := by
    nlinarith
  have hn : e.reserveIn * y1 ≤ e.reserveIn * y2 := by nlinarith [he.1]
  exact div_le_div₀ (mul_nonneg he.1.le (h1.trans h12)) hn hd2 hd1

theorem hopInReq_ratio (e : Edge) (he : validEdge e) (y : ℚ)
    (hy : 0 < y) (hlt : y < e.reserveOut) :
    y / hopInReq e y = feeFactor e * (e.reserveOut - y) / e.reserveIn := by
  unfold hopInReq
  have hf := feeFactor_pos e he
  have hd : 0 < feeFactor e * (e.reserveOut - y) := mul_pos hf (by linarith)
  rw [div_div_eq_mul_div, mul_comm y (feeFactor e * (e.reserveOut - y)),
    mul_div_mul_right _ _ hy.ne.symm]

theorem hopInReq_ratio_anti (e : Edge) (he : validEdge e) (y1 y2 : ℚ)
    (h1 : 0 < y1) (h12 : y1 ≤ y2) (hlt : y2 < e.reserveOut) :
    y2 / hopInReq e y2 ≤ y1 / hopInReq e y1 := by
  rw [hopInReq_ratio e he y1 h1 (lt_of_le_of_lt h12 hlt),
    hopInReq_ratio e he y2 (h1.trans_le h12) hlt]
  have hf := feeFactor_pos e he
  have : feeFactor e * (e.reserveOut - y2) ≤ feeFactor e * (e.reserveOut - y1) := by
    nlinarith
  exact div_le_div_of_nonneg_right this he.1.le

theorem pathInReq_nonneg (p : List Edge) (hp : pathValid p) (y : ℚ)
    (hy : 0 ≤ y) (i : ℚ) (h : pathInReq p y = some i) : 0 ≤ i := by
  induction p generalizing y i with
  | nil =>
    rw [pathInReq] at h
    cases h
    exact hy
  | cons e es ih =>
    obtain ⟨he, hes⟩ := pathValid_cons hp
    rw [pathInReq] at h
    cases hmid : pathInReq es y with
    | none => rw [hmid] at h; cases h
    | some mid =>
      rw [hmid] at h
      dsimp only at h
      by_cases hlt : mid < e.reserveOut
      · rw [if_pos hlt] at h
        cases h
        exact hopInReq_nonneg e he mid (ih hes y hy mid hmid) hlt
      · rw [if_neg hlt] at h
        cases h

theorem pathInReq_pos (p : List Edge) (hp : pathValid p) (y : ℚ)
    (hy : 0 < y) (i : ℚ) (h : pathInReq p y = some i) : 0 < i := by
  induction p generalizing y i with
  | nil =>
    rw [pathInReq] at h
    cases h
    exact hy
  | cons e es ih =>
    obtain ⟨he, hes⟩ := pathValid_cons hp
    rw [pathInReq] at h
    cases hmid : pathInReq es y with
    | none => rw [hmid] at h; cases h
    | some mid =>
      rw [hmid] at h
      dsimp only at h
      by_cases hlt : mid < e.reserveOut
      · rw [if_pos hlt] at h
        cases h
        exact hopInReq_pos e he mid (ih hes y hy mid hmid) hlt
      · rw [if_neg hlt] at h
        cases h

theorem pathInReq_mono (p : List Edge) (hp : pathValid p) (y1 y2 : ℚ)
    (h1 : 0 ≤ y1) (h12 : y1 ≤ y2) (i1 i2 : ℚ)
    (hs1 : pathInReq p y1 = some i1) (hs2 : pathInReq p y2 = some i2) :
    i1 ≤ i2 := by
  induction p generalizing y1 y2 i1 i2 with
  | nil =>
    rw [pathInReq] at hs1 hs2
    cases hs1
    cases hs2
    exact h12
  | cons e es ih =>
    obtain ⟨he, hes⟩ := pathValid_cons hp
    rw [pathInReq] at hs1 hs2
    cases hmid1 : pathInReq es y1 with
    | none => rw [hmid1] at hs1; cases hs1
    | some mid1 =>
      cases hmid2 : pathInReq es y2 with
      | none => rw [hmid2] at hs2; cases hs2
      | some mid2 =>
        rw [hmid1] at hs1
        rw [hmid2] at hs2
        dsimp only at hs1 hs2
        by_cases hlt1 : mid1 < e.reserveOut
        · by_cases hlt2 : mid2 < e.reserveOut
          · rw [if_pos hlt1] at hs1
            rw [if_pos hlt2] at hs2
            cases hs1
            cases hs2
            exact hopInReq_mono e he mid1 mid2
              (pathInReq_nonneg es hes y1 h1 mid1 hmid1)
              (ih hes y1 y2 h1 h12 mid1 mid2 hmid1 hmid2) hlt2
          · rw [if_neg hlt2] at hs2
            cases hs2
        · rw [if_neg hlt1] at hs1
          cases hs1

theorem pathInReq_ratio_anti (p : List Edge) (hp : pathValid p) (y1 y2 : ℚ)
    (h1 : 0 < y1) (h12 : y1 ≤ y2) (i1 i2 : ℚ)
    (hs1 : pathInReq p y1 = some i1) (hs2 : pathInReq p y2 = some i2) :
    y2 / i2 ≤ y1 / i1 := by
  induction p generalizing y1 y2 i1 i2 with
  | nil =>
    rw [pathInReq] at hs1 hs2
    cases hs1
    cases hs2
    rw [div_self h1.ne.symm, div_self (h1.trans_le h12).ne.symm]
  | cons e es ih =>
    obtain ⟨he, hes⟩ := pathValid_cons hp
    rw [pathInReq] at hs1 hs2
    cases hmid1 : pathInReq es y1 with
    | none => rw [hmid1] at hs1; cases hs1
    | some mid1 =>
      cases hmid2 : pathInReq es y2 with
      | none => rw [hmid2] at hs2; cases hs2
      | some mid2 =>
        rw [hmid1] at hs1
        rw [hmid2] at hs2
        dsimp only at hs1 hs2
        by_cases hlt1 : mid1 < e.reserveOut
        · by_cases hlt2 : mid2 < e.reserveOut
          · rw [if_pos hlt1] at hs1
            rw [if_pos hlt2] at hs2
            cases hs1
            cases hs2
            have hm1 : 0 < mid1 := pathInReq_pos es hes y1 h1 mid1 hmid1
            have hm2 : 0 < mid2 := pathInReq_pos es hes y2 (h1.trans_le h12) mid2 hmid2
            have hmm : mid1 ≤ mid2 := pathInReq_mono es hes y1 y2 h1.le h12 mid1 mid2 hmid1 hmid2
            have hi1 : 0 < hopInReq e mid1 := hopInReq_pos e he mid1 hm1 hlt1
            have hi2 : 0 < hopInReq e mid2 := hopInReq_pos e he mid2 hm2 hlt2
            have hsplit1 : y1 / hopInReq e mid1 = y1 / mid1 * (mid1 / hopInReq e mid1) := by
              rw [div_mul_div_comm, mul_comm mid1 (hopInReq e mid1),
                mul_div_mul_right _ _ hm1.ne.symm]
            have hsplit2 : y2 / hopInReq e mid2 = y2 / mid2 * (mid2 / hopInReq e mid2) := by
              rw [div_mul_div_comm, mul_comm mid2 (hopInReq e mid2),
                mul_div_mul_right _ _ hm2.ne.symm]
            rw [hsplit1, hsplit2]
            have hfirst : y2 / mid2 ≤ y1 / mid1 := ih hes y1 y2 h1 h12 mid1 mid2 hmid1 hmid2
            have hsecond : mid2 / hopInReq e mid2 ≤ mid1 / hopInReq e mid1 :=
              hopInReq_ratio_anti e he mid1 mid2 hm1 hmm hlt2
            exact mul_le_mul hfirst hsecond
              (div_nonneg hm2.le hi2.le)
              (div_nonneg h1.le hm1.le)
          · rw [if_neg hlt2] at hs2
            cases hs2
        · rw [if_neg hlt1] at hs1
          cases hs1

/-- C7 — spec-modelled: `simulate` is monotone in the trial amount: for a
fixed path and trade type, and trial amounts `a1 ≤ a2` on which it
succeeds, the price impact reported for `a2` is at least the one reported
for `a1`. -/
theorem simulate_impact_mono (p : List Edge) (tt : TradeType) (a1 a2 : ℚ)
    (r1 r2 : ℚ × ℚ) (hp : pathValid p) (h1 : 0 < a1) (h12 : a1 ≤ a2)
    (hs1 : simulate p a1 tt = some r1) (hs2 : simulate p a2 tt = some r2) :
    r1.2 ≤ r2.2 := by
  have hspot := spotPrice_pos p hp
  cases tt with
  | exactIn =>
    rw [simulate] at hs1 hs2
    cases hs1
    cases hs2
    exact impactOf_anti _ _ _ hspot (pathOut_ratio_anti p hp a1 a2 h1 h12)
  | exactOut =>
    rw [simulate] at hs1 hs2
    cases hi1 : pathInReq p a1 with
    | none => rw [hi1] at hs1; cases hs1
    | some i1v =>
      cases hi2 : pathInReq p a2 with
      | none => rw [hi2] at hs2; cases hs2
      | some i2v =>
        rw [hi1] at hs1
        rw [hi2] at hs2
        dsimp only [Option.map] at hs1 hs2
        cases hs1
        cases hs2
        exact impactOf_anti _ _ _ hspot
          (pathInReq_ratio_anti p hp a1 a2 h1 h12 i1v i2v hi1 hi2)

/-- Witness for C7: on the concrete fee-free 100/100 pool, doubling the
trial amount from 10 to 20 raises the price impact from 10000/11 bps to
5000/3 bps. -/
theorem simulate_impact_mono_witness :
    pathValid [edgeFlat] ∧ (0 : ℚ) < 10 ∧ (10 : ℚ) ≤ 20 ∧
    simulate [edgeFlat] 10 .exactIn = some (100 / 11, 10000 / 11) ∧
    simulate [edgeFlat] 20 .exactIn = some (50 / 3, 5000 / 3) ∧
    ((100 / 11 : ℚ), (10000 / 11 : ℚ)).2 ≤ ((50 / 3 : ℚ), (5000 / 3 : ℚ)).2 := by
  have hv : pathValid [edgeFlat] := by decide
  have hs1 : simulate [edgeFlat] 10 .exactIn = some (100 / 11, 10000 / 11) := by
    with_unfolding_all rfl
  have hs2 : simulate [edgeFlat] 20 .exactIn = some (50 / 3, 5000 / 3) := by
    with_unfolding_all rfl
  refine ⟨hv, by norm_num, by norm_num, hs1, hs2, ?_⟩
  exact simulate_impact_mono [edgeFlat] .exactIn 10 20 _ _ hv (by norm_num) (by norm_num) hs1 hs2

/-! ## Request validation -/

theorem validateParams_ok_of_requiredOk (p : RawParams) (h : requiredOk p) :
    validateParams p = .ok p := by
  obtain ⟨⟨h1, h2, h3, ⟨t0, ht0, ha0, hd0⟩, ⟨t1, ht1, ha1, hd1⟩, htt⟩, h4⟩ := h
  have htt' : p.tradeType.truthy = true := by
    rcases htt with h | h <;> rw [h] <;> rfl
  unfold validateParams
  rw [ht0, ht1]
  dsimp only
  rw [h1, h2, h3, h4, htt', ha0, hd0, ha1, hd1]
  have hc3 : ¬(p.tradeType ≠ JsPrim.str "exactIn" ∧ p.tradeType ≠ JsPrim.str "exactOut") := by
    rcases htt with h | h <;> rw [h] <;> simp
  simp [hc3]

theorem validateParams_ok_elim (p r : RawParams) (h : validateParams p = .ok r) :
    r = p ∧ requiredOk p := by
  unfold validateParams at h
  cases ht0 : p.token0 with
  | none =>
    rw [ht0] at h
    cases ht1 : p.token1 with
    | none => rw [ht1] at h; cases h
    | some t1 => rw [ht1] at h; cases h
  | some t0 =>
    rw [ht0] at h
    cases ht1 : p.token1 with
    | none => rw [ht1] at h; cases h
    | some t1 =>
      rw [ht1] at h
      dsimp only at h
      by_cases hc1 : (!p.chainId.truthy || !p.amount.truthy
          || !p.walletAddress.truthy || !p.slippage.truthy || !p.tradeType.truthy) = true
      · rw [if_pos hc1] at h; cases h
      · rw [if_neg hc1] at h
        by_cases hc2 : (!t0.address.truthy || !t0.decimals.truthy
            || !t1.address.truthy || !t1.decimals.truthy) = true
        · rw [if_pos hc2] at h; cases h
        · rw [if_neg hc2] at h
          by_cases hc3 : p.tradeType ≠ JsPrim.str "exactIn" ∧ p.tradeType ≠ JsPrim.str "exactOut"
          · rw [if_pos hc3] at h; cases h
          · rw [if_neg hc3] at h
            cases h
            simp only [Bool.or_eq_true, Bool.not_eq_true', not_or, Bool.not_eq_false]
              at hc1 hc2
            push_neg at hc3
            obtain ⟨⟨⟨⟨hch, ham⟩, hwa⟩, hsl⟩, -⟩ := hc1
            obtain ⟨⟨⟨ha0, hd0⟩, ha1⟩, hd1⟩ := hc2
            exact ⟨rfl, ⟨hch, ham, hwa,
              ⟨t0, ht0, ha0, hd0⟩, ⟨t1, ht1, ha1, hd1⟩,
              or_iff_not_imp_left.mpr hc3⟩, hsl⟩

/-- C1 counterexample: a parameter object whose amount is the negative
number −5 passes `validateParams` unchanged — the guard only tests JS
truthiness, so validation does not reject every non-positive amount. -/
theorem validateParams_accepts_negative_amount :
    pNegAmount.amount = JsPrim.num (-5) ∧ validateParams pNegAmount = .ok pNegAmount :=
  ⟨rfl, rfl⟩

/-- C1 (amended) — `validateParams` rejects exactly the falsy amounts:
whenever the amount field is the number `0` or missing, it throws, so no
route computation runs for those requests; negative amounts, however,
pass. -/
theorem validateParams_rejects_falsy_amount (p : RawParams)
    (h : p.amount = JsPrim.num 0 ∨ p.amount = JsPrim.undef) :
    ∃ e, validateParams p = .error e := by
  have hfalse : p.amount.truthy = false := by
    rcases h with h | h <;> rw [h] <;> rfl
  unfold validateParams
  cases ht0 : p.token0 with
  | none =>
    cases ht1 : p.token1 with
    | none => exact ⟨_, rfl⟩
    | some t1 => exact ⟨_, rfl⟩
  | some t0 =>
    cases ht1 : p.token1 with
    | none => exact ⟨_, rfl⟩
    | some t1 =>
      dsimp only
      rw [if_pos (by rw [hfalse]; simp)]
      exact ⟨_, rfl⟩

/-- Witness for C1: the concrete object with amount `0` is rejected. -/
theorem validateParams_rejects_falsy_amount_witness :
    (pZeroAmount.amount = JsPrim.num 0 ∨ pZeroAmount.amount = JsPrim.undef) ∧
    ∃ e, validateParams pZeroAmount = .error e :=
  ⟨Or.inl rfl, validateParams_rejects_falsy_amount pZeroAmount (Or.inl rfl)⟩

/-- C2 counterexample: slippage `0` — inside the documented 0–10000 range —
is rejected by `validateParams` because `0` is falsy, even though every
other field is present and well-formed. -/
theorem validateParams_rejects_zero_slippage :
    pZeroSlippage.slippage = JsPrim.num 0 ∧ otherFieldsOk pZeroSlippage ∧
    (∃ e, validateParams pZeroSlippage = .error e) :=
  ⟨rfl,
    ⟨rfl, rfl, rfl, ⟨tokA, rfl, by decide⟩, ⟨tokB, rfl, by decide⟩, Or.inl rfl⟩,
    ⟨_, rfl⟩⟩

/-- C2 (amended) — every slippage value from 1 through 10000 basis points
is accepted: with the other required fields well-formed and slippage a
number in that range, `validateParams` succeeds and returns the
parameters (hence that slippage value) unchanged; slippage `0` is
rejected as falsy. -/
theorem validateParams_accepts_positive_slippage (p : RawParams) (s : Int)
    (hother : otherFieldsOk p) (hs : p.slippage = JsPrim.num s)
    (h1 : 1 ≤ s) (h2 : s ≤ 10000) :
    validateParams p = .ok p := by
  apply validateParams_ok_of_requiredOk
  refine ⟨hother, ?_⟩
  rw [hs]
  simp only [JsPrim.truthy, bne_iff_ne, ne_eq, decide_eq_true_eq]
  omega

/-- Witness for C2: the fully populated object with slippage 50 bps is
accepted unchanged. -/
theorem validateParams_accepts_positive_slippage_witness :
    otherFieldsOk pAllGood ∧ pAllGood.slippage = JsPrim.num 50 ∧
    (1 : Int) ≤ 50 ∧ (50 : Int) ≤ 10000 ∧ validateParams pAllGood = .ok pAllGood := by
  have hother : otherFieldsOk pAllGood :=
    ⟨rfl, rfl, rfl, ⟨tokA, rfl, by decide⟩, ⟨tokB, rfl, by decide⟩, Or.inl rfl⟩
  exact ⟨hother, rfl, by norm_num, by norm_num,
    validateParams_accepts_positive_slippage pAllGood 50 hother rfl (by norm_num) (by norm_num)⟩

/-- C3 counterexample: a parameter object satisfying every condition the
claim lists — tradeType `exactIn`, both tokens with non-empty address and
positive decimals, chainId and amount present — but with no slippage
field is still rejected, so the claimed equivalence fails (the code also
requires truthy `walletAddress` and `slippage`). -/
theorem validateParams_claim_iff_fails :
    pNoSlippage.tradeType = JsPrim.str "exactIn" ∧
    pNoSlippage.chainId = JsPrim.num 1 ∧ pNoSlippage.amount = JsPrim.num 1000 ∧
    pNoSlippage.token0 = some tokA ∧ pNoSlippage.token1 = some tokB ∧
    tokA.address = JsPrim.str "0xA" ∧ tokA.decimals = JsPrim.num 18 ∧
    tokB.address = JsPrim.str "0xB" ∧ tokB.decimals = JsPrim.num 6 ∧
    (∃ e, validateParams pNoSlippage = .error e) :=
  ⟨rfl, rfl, rfl, rfl, rfl, rfl, rfl, rfl, rfl, ⟨_, rfl⟩⟩

/-- C3 (amended) — `validateParams` returns a result exactly when every
truthiness requirement of the code holds: truthy chainId, amount,
walletAddress and slippage, both tokens present with truthy address and
decimals, and tradeType literally `exactIn` or `exactOut`; the returned
object is the input unchanged. -/
theorem validateParams_ok_iff (p : RawParams) :
    (∃ r, validateParams p = .ok r) ↔ requiredOk p := by
  constructor
  · rintro ⟨r, h⟩
    exact (validateParams_ok_elim p r h).2
  · intro h
    exact ⟨p, validateParams_ok_of_requiredOk p h⟩

/-- C10 — the deadline field is never required: with every required field
well-formed and no deadline present, `validateParams` succeeds and
returns the parameters, whose deadline is still undefined. -/
theorem validateParams_deadline_optional (p : RawParams)
    (h : requiredOk p) (hd : p.deadline = JsPrim.undef) :
    validateParams p = .ok p ∧ p.deadline = JsPrim.undef :=
  ⟨validateParams_ok_of_requiredOk p h, hd⟩

/-- Witness for C10: the concrete object with no deadline is accepted. -/
theorem validateParams_deadline_optional_witness :
    requiredOk pNoDeadline ∧ pNoDeadline.deadline = JsPrim.undef ∧
    (validateParams pNoDeadline = .ok pNoDeadline ∧
      pNoDeadline.deadline = JsPrim.undef) := by
  have h : requiredOk pNoDeadline :=
    ⟨⟨rfl, rfl, rfl, ⟨tokA, rfl, by decide⟩, ⟨tokB, rfl, by decide⟩, Or.inl rfl⟩, rfl⟩
  exact ⟨h, rfl, validateParams_deadline_optional pNoDeadline h rfl⟩

/-! ## Handler behaviour -/

/-- C8 — debug bypass: for any non-OPTIONS request whose `debug` query
parameter is the string `true`, the handler answers 200 with the
environment name and the inbound headers, for every route oracle and
every parameter payload — so neither validation nor route computation
influences the response. -/
theorem handler_debug_bypass (α : Type) (env : Option String)
    (getRoute : RawParams → Except Thrown α) (req : Request)
    (hm : req.method ≠ "OPTIONS") (hd : req.queryDebug = JsPrim.str "true") :
    handler α env getRoute req = .json 200 (.debug "" env req.headers) := by
  unfold handler
  rw [if_neg hm, hd]
  dsimp only
  rw [if_pos rfl]

/-- Witness for C8: a GET request carrying `debug=true`, an empty
parameter object and a route oracle that always fails still yields the
debug echo. -/
theorem handler_debug_bypass_witness :
    reqDebug.method ≠ "OPTIONS" ∧ reqDebug.queryDebug = JsPrim.str "true" ∧
    handler Unit none (fun _ => Except.error Thrown.other) reqDebug =
      .json 200 (.debug "" none reqDebug.headers) :=
  ⟨by decide, rfl,
    handler_debug_bypass Unit none (fun _ => Except.error Thrown.other) reqDebug (by decide) rfl⟩

/-- C9 — `handleError` is total and always yields exactly one JSON error
response: for an `Error` the status is its status field or 500, the
body's code its code field or that status, the message its message or
the generic one; a thrown string becomes a 500 with that message; any
other value a generic 500. -/
theorem handleError_total_spec (α : Type) (env : Option String) (t : Thrown) :
    ∃ status code message extra,
      handleError α env t = .json status (.failure code message extra) ∧
      (∀ e, t = .err e →
        status = e.status.getD 500 ∧ code = e.code.getD (e.status.getD 500) ∧
        message = (if e.message = "" then "Server internal error" else e.message)) ∧
      (∀ s, t = .str s → status = 500 ∧ code = 500 ∧ message = s) ∧
      (t = .other → status = 500 ∧ code = 500 ∧ message = "Server internal error") := by
  cases t with
  | err e =>
    refine ⟨e.status.getD 500, e.code.getD (e.status.getD 500),
      if e.message = "" then "Server internal error" else e.message,
      if env = some "development" then some (jsOr e.stack (jsOr e.cause .undef)) else none,
      rfl, ?_, ?_, ?_⟩
    · intro e' he
      cases he
      exact ⟨rfl, rfl, rfl⟩
    · intro s hs
      cases hs
    · intro ho
      cases ho
  | str s =>
    refine ⟨500, 500, s, none, rfl, ?_, ?_, ?_⟩
    · intro e' he
      cases he
    · intro s' hs
      cases hs
      exact ⟨rfl, rfl, rfl⟩
    · intro ho
      cases ho
  | other =>
    refine ⟨500, 500, "Server internal error", none, rfl, ?_, ?_, ?_⟩
    · intro e' he
      cases he
    · intro s' hs
      cases hs
    · intro ho
      exact ⟨rfl, rfl, rfl⟩

/-- Witness for C9: the specification applied to a concretely thrown
string. -/
theorem handleError_total_spec_witness :
    ∃ status code message extra,
      handleError Unit none (Thrown.str "boom") = .json status (.failure code message extra) ∧
      (∀ e, Thrown.str "boom" = .err e →
        status = e.status.getD 500 ∧ code = e.code.getD (e.status.getD 500) ∧
        message = (if e.message = "" then "Server internal error" else e.message)) ∧
      (∀ s, Thrown.str "boom" = .str s → status = 500 ∧ code = 500 ∧ message = s) ∧
      (Thrown.str "boom" = .other → status = 500 ∧ code = 500 ∧
        message = "Server internal error") :=
  handleError_total_spec Unit none (Thrown.str "boom")

/-! ## Route computation -/

/-- C4 — spec-modelled: whenever the input token equals the output token,
route computation fails with `InvalidRequest` instead of producing a
quote, regardless of configuration, pool snapshot or time. -/
theorem computeRoute_self_referential (cfg : Config) (pools : List Pool) (now : ℚ)
    (req : TradeRequest) (h : req.inputToken = req.outputToken) :
    computeRoute cfg pools now req = .error .invalidRequest := by
  unfold computeRoute
  rw [if_pos h]

/-- Witness for C4: the concrete USDC → USDC request fails with
`InvalidRequest`. -/
theorem computeRoute_self_referential_witness :
    reqSelf.inputToken = reqSelf.outputToken ∧
    computeRoute cfgA [poolA] 0 reqSelf = .error .invalidRequest :=
  ⟨rfl, computeRoute_self_referential cfgA [poolA] 0 reqSelf rfl⟩

/-- C5 — spec-modelled: a request that passes request validation but
whose deadline is already in the past yields `DeadlineExceeded`, and the
result is the same for every pool snapshot and configuration, so no
simulation work contributes to it. -/
theorem computeRoute_deadline_exceeded (cfg : Config) (pools : List Pool) (now : ℚ)
    (req : TradeRequest) (hio : req.inputToken ≠ req.outputToken)
    (hamt : 0 < req.amount) (hdl : req.deadline < now) :
    computeRoute cfg pools now req = .error .deadlineExceeded := by
  unfold computeRoute
  rw [if_neg hio, if_neg (not_le.mpr hamt), if_pos hdl]

/-- Witness for C5: the scenario-A request with deadline 5 evaluated at
time 10 fails with `DeadlineExceeded`. -/
theorem computeRoute_deadline_exceeded_witness :
    reqLate.inputToken ≠ reqLate.outputToken ∧ (0 : ℚ) < reqLate.amount ∧
    reqLate.deadline < (10 : ℚ) ∧
    computeRoute cfgA [poolA] 10 reqLate = .error .deadlineExceeded := by
  refine ⟨by decide, by decide, by decide, ?_⟩
  exact computeRoute_deadline_exceeded cfgA [poolA] 10 reqLate (by decide) (by decide) (by decide)

theorem mem_buildGraph_valid (pools : List Pool) (c : Nat) (e : Edge)
    (h : e ∈ buildGraph pools c) : validEdge e := by
  unfold buildGraph at h
  rw [List.mem_flatMap] at h
  obtain ⟨pl, hpl, he⟩ := h
  rw [List.mem_filter, Bool.and_eq_true] at hpl
  have husable := hpl.2.2
  unfold usablePool at husable
  simp only [Bool.and_eq_true, decide_eq_true_eq] at husable
  obtain ⟨⟨⟨h0, h1⟩, hf0⟩, hf1⟩ := husable
  unfold poolEdges at he
  simp only [List.mem_cons, List.not_mem_nil, or_false] at he
  rcases he with rfl | rfl
  · exact ⟨h0, h1, hf0, hf1⟩
  · exact ⟨h1, h0, hf0, hf1⟩

theorem findPathsAux_mem_graph (graph : List Edge) (target : Token) :
    ∀ (fuel : Nat) (cur : Token) (vis : List Token) (p : List Edge),
      p ∈ findPathsAux graph target fuel cur vis → ∀ e ∈ p, e ∈ graph := by
  intro fuel
  induction fuel with
  | zero =>
    intro cur vis p hp
    rw [findPathsAux] at hp
    exact absurd hp (List.not_mem_nil p)
  | succ n ih =>
    intro cur vis p hp e he
    rw [findPathsAux, List.mem_flatMap] at hp
    obtain ⟨ed, hed, hp⟩ := hp
    rw [List.mem_filter] at hed
    have hedg := hed.1
    by_cases ht : (ed.tokenOut == target) = true
    · rw [if_pos ht] at hp
      simp only [List.mem_singleton] at hp
      subst hp
      simp only [List.mem_singleton] at he
      subst he
      exact hedg
    · rw [if_neg ht] at hp
      rw [List.mem_map] at hp
      obtain ⟨rest, hrest, rfl⟩ := hp
      rcases List.mem_cons.mp he with rfl | he'
      · exact hedg
      · exact ih ed.tokenOut (ed.tokenOut :: vis) rest hrest e he'

theorem mem_insertByLen (p q : List Edge) (l : List (List Edge)) :
    q ∈ insertByLen p l ↔ q = p ∨ q ∈ l := by
  induction l with
  | nil => simp [insertByLen]
  | cons r rs ih =>
    rw [insertByLen]
    by_cases h : p.length ≤ r.length
    · rw [if_pos h]
      simp [List.mem_cons]
    · rw [if_neg h]
      simp only [List.mem_cons, ih]
      tauto

theorem mem_rankPaths (q : List Edge) (l : List (List Edge)) :
    q ∈ rankPaths l ↔ q ∈ l := by
  induction l with
  | nil => simp [rankPaths]
  | cons p ps ih =>
    rw [rankPaths, mem_insertByLen, ih, List.mem_cons]

theorem findPaths_ok (graph : List Edge) (i o : Token) (mh mp : Nat)
    (cands : List (List Edge))
    (h : findPaths graph i o mh mp = .ok cands) :
    cands ≠ [] ∧ ∀ p ∈ cands, ∀ e ∈ p, e ∈ graph := by
  unfold findPaths at h
  by_cases hio : i = o
  · rw [if_pos hio] at h
    cases h
  · rw [if_neg hio] at h
    dsimp only at h
    by_cases hemp : ((rankPaths (findPathsAux graph o mh i [i])).take mp).isEmpty = true
    · rw [if_pos hemp] at h
      cases h
    · rw [if_neg hemp] at h
      cases h
      constructor
      · intro hnil
        rw [hnil] at hemp
        exact hemp rfl
      · intro p hp e he
        have hp' : p ∈ rankPaths (findPathsAux graph o mh i [i]) :=
          List.take_subset _ _ hp
        rw [mem_rankPaths] at hp'
        exact findPathsAux_mem_graph graph o mh i [i] p hp' e he

theorem pickBest_some (score : List Edge → ℚ) (l : List (List Edge)) (hl : l ≠ []) :
    ∃ b rest, pickBest score l = some (b, rest) ∧ b ∈ l ∧ ∀ q ∈ rest, q ∈ l := by
  induction l with
  | nil => exact absurd rfl hl
  | cons p ps ih =>
    by_cases hps : ps = []
    · subst hps
      exact ⟨p, [], rfl, List.mem_singleton.mpr rfl, fun q hq => absurd hq (List.not_mem_nil q)⟩
    · obtain ⟨b, rest, hpb, hbmem, hrmem⟩ := ih hps
      rw [pickBest, hpb]
      dsimp only
      by_cases hcmp : score b < score p
      · rw [if_pos hcmp]
        refine ⟨p, b :: rest, rfl, List.mem_cons_self p ps, ?_⟩
        intro q hq
        rcases List.mem_cons.mp hq with rfl | hq'
        · exact List.mem_cons_of_mem p hbmem
        · exact List.mem_cons_of_mem p (hrmem q hq')
      · rw [if_neg hcmp]
        refine ⟨b, p :: rest, rfl, List.mem_cons_of_mem p hbmem, ?_⟩
        intro q hq
        rcases List.mem_cons.mp hq with rfl | hq'
        · exact List.mem_cons_self q ps
        · exact List.mem_cons_of_mem p (hrmem q hq')

theorem stepRealloc_good (total : ℚ) (splits : List (List Edge × ℚ)) (alt : List Edge)
    (hg : goodSplits total splits) (halt : pathValid alt) :
    goodSplits total (stepRealloc splits alt) := by
  obtain ⟨hsum, hall⟩ := hg
  cases splits with
  | nil => exact ⟨hsum, hall⟩
  | cons s rest =>
    obtain ⟨p, a⟩ := s
    rw [stepRealloc]
    by_cases hcmp : aggOutput ((p, a) :: rest) <
        aggOutput ((p, a - a / 2) :: (alt, a / 2) :: rest)
    · rw [if_pos hcmp]
      have ha : 0 ≤ a := (hall (p, a) (List.mem_cons_self _ _)).1
      constructor
      · unfold splitsSum at hsum ⊢
        simp only [List.map_cons, List.sum_cons] at hsum ⊢
        linarith
      · intro s hs
        rcases List.mem_cons.mp hs with rfl | hs'
        · exact ⟨by linarith, (hall (p, a) (List.mem_cons_self _ _)).2⟩
        · rcases List.mem_cons.mp hs' with rfl | hs''
          · exact ⟨by linarith, halt⟩
          · exact hall s (List.mem_cons_of_mem _ hs'')
    · rw [if_neg hcmp]
      exact ⟨hsum, hall⟩

theorem foldl_stepRealloc_good (total : ℚ) (alts : List (List Edge))
    (halts : ∀ q ∈ alts, pathValid q) (init : List (List Edge × ℚ))
    (hinit : goodSplits total init) :
    goodSplits total (alts.foldl stepRealloc init) := by
  induction alts generalizing init with
  | nil => exact hinit
  | cons alt rest ih =>
    rw [List.foldl_cons]
    exact ih (fun q hq => halts q (List.mem_cons_of_mem _ hq))
      (stepRealloc init alt)
      (stepRealloc_good total init alt hinit (halts alt (List.mem_cons_self _ _)))

theorem aggOutput_nonneg (splits : List (List Edge × ℚ))
    (h : ∀ s ∈ splits, 0 ≤ s.2 ∧ pathValid s.1) : 0 ≤ aggOutput splits := by
  induction splits with
  | nil =>
    unfold aggOutput
    simp
  | cons s rest ih =>
    have hs := h s (List.mem_cons_self _ _)
    have h1 : 0 ≤ pathOut s.1 s.2 := pathOut_nonneg s.1 hs.2 s.2 hs.1
    have h2 : 0 ≤ aggOutput rest := ih fun q hq => h q (List.mem_cons_of_mem _ hq)
    unfold aggOutput at h2 ⊢
    simp only [List.map_cons, List.sum_cons]
    linarith

theorem aggOutput_pos (splits : List (List Edge × ℚ))
    (h : ∀ s ∈ splits, 0 ≤ s.2 ∧ pathValid s.1)
    (hsum : 0 < splitsSum splits) : 0 < aggOutput splits := by
  induction splits with
  | nil =>
    unfold splitsSum at hsum
    simp at hsum
  | cons s rest ih =>
    have hs := h s (List.mem_cons_self _ _)
    have hrest : ∀ q ∈ rest, 0 ≤ q.2 ∧ pathValid q.1 :=
      fun q hq => h q (List.mem_cons_of_mem _ hq)
    unfold aggOutput
    simp only [List.map_cons, List.sum_cons]
    have hro : 0 ≤ aggOutput rest := aggOutput_nonneg rest hrest
    unfold aggOutput at hro
    by_cases ha : 0 < s.2
    · have hpo := pathOut_pos s.1 hs.2 s.2 ha
      linarith
    · have ha0 : s.2 = 0 := le_antisymm (not_lt.mp ha) hs.1
      have hsum' : 0 < splitsSum rest := by
        unfold splitsSum at hsum ⊢
        simp only [List.map_cons, List.sum_cons] at hsum
        linarith
      have hpos := ih hrest hsum'
      have h1 : 0 ≤ pathOut s.1 s.2 := pathOut_nonneg s.1 hs.2 s.2 hs.1
      unfold aggOutput at hpos
      linarith

/-- C6 — spec-modelled: for every well-formed exact-in trade request with
a reachable path, `computeRoute` returns a quote whose aggregate output
is strictly positive and whose split amounts sum exactly to the requested
amount. -/
theorem computeRoute_wellformed (cfg : Config) (pools : List Pool) (now : ℚ)
    (req : TradeRequest) (cands : List (List Edge))
    (hio : req.inputToken ≠ req.outputToken) (hamt : 0 < req.amount)
    (hdl : ¬req.deadline < now) (htt : req.tradeType = .exactIn)
    (hreach : findPaths (buildGraph pools req.chainId) req.inputToken req.outputToken
        cfg.maxHops cfg.maxPaths = .ok cands) :
    ∃ q : Quote, computeRoute cfg pools now req = .ok q ∧
      0 < q.route.realized ∧ splitsSum q.route.splits = req.amount := by
  obtain ⟨hne, hmem⟩ := findPaths_ok _ _ _ _ _ _ hreach
  have hvalid : ∀ p ∈ cands, pathValid p :=
    fun p hp e he => mem_buildGraph_valid pools req.chainId e (hmem p hp e he)
  obtain ⟨best, alts, hpb, hbmem, harest⟩ :=
    pickBest_some (fun p => pathOut p req.amount) cands hne
  have hinit : goodSplits req.amount [(best, req.amount)] := by
    constructor
    · unfold splitsSum
      simp
    · intro s hs
      rcases List.mem_cons.mp hs with rfl | hs'
      · exact ⟨hamt.le, hvalid best hbmem⟩
      · exact absurd hs' (List.not_mem_nil s)
  have hgood : goodSplits req.amount (alts.foldl stepRealloc [(best, req.amount)]) :=
    foldl_stepRealloc_good req.amount alts (fun q hq => hvalid q (harest q hq))
      [(best, req.amount)] hinit
  have hpos : 0 < aggOutput (alts.foldl stepRealloc [(best, req.amount)]) :=
    aggOutput_pos _ hgood.2 (by rw [hgood.1]; exact hamt)
  unfold computeRoute
  rw [if_neg hio, if_neg (not_le.mpr hamt), if_neg hdl]
  dsimp only
  rw [hreach]
  unfold optimize
  rw [htt]
  dsimp only
  rw [hpb]
  dsimp only
  unfold finalize
  rw [if_neg hdl, htt]
  dsimp only
  exact ⟨_, rfl, hpos, hgood.1⟩

/-- Witness for C6: spec scenario A — 1000 USDC exact-in against the
single 1,000,000 USDC / 500 ETH pool yields a quote with positive output
whose single split carries the full 1000. -/
theorem computeRoute_wellformed_witness :
    reqA.inputToken ≠ reqA.outputToken ∧ (0 : ℚ) < reqA.amount ∧
    ¬reqA.deadline < (0 : ℚ) ∧ reqA.tradeType = .exactIn ∧
    findPaths (buildGraph [poolA] reqA.chainId) reqA.inputToken reqA.outputToken
      cfgA.maxHops cfgA.maxPaths = .ok [[edgeA]] ∧
    ∃ q : Quote, computeRoute cfgA [poolA] 0 reqA = .ok q ∧
      0 < q.route.realized ∧ splitsSum q.route.splits = reqA.amount := by
  have hreach : findPaths (buildGraph [poolA] reqA.chainId) reqA.inputToken reqA.outputToken
      cfgA.maxHops cfgA.maxPaths = .ok [[edgeA]] := rfl
  refine ⟨by decide, by decide, by decide, rfl, hreach, ?_⟩
  exact computeRoute_wellformed cfgA [poolA] 0 reqA [[edgeA]]
    (by decide) (by decide) (by decide) rfl hreach

end SmartOrderRouter
